import Mathlib

/-!
Shallow embedding of the secure-web-gateway proxy
(`week2-secure-web-gateway/proxy/main.go`).

Go strings are modelled as `List Char`.  `strings.Split` with a one-character
separator is `splitOnChar`, `strings.Join` with separator `"."` is `joinDots`,
and `strings.ToLower` is `toLowerS` (the ASCII case mapping, which is Go's
behaviour on ASCII hostnames; non-ASCII case folding is out of scope).
The `map[string]bool` blocklist is modelled as a list of entries with
membership lookup, and the HTTP side effects of `ServeHTTP` are modelled as an
explicit outcome value: either the 403 block response built by
`serveBlockedPage`, or delegation to `forwardRequest`.
-/

namespace SWG

abbrev Str := List Char

/-- The ASCII uppercase-to-lowercase table. -/
def lowerTable : List (Char × Char) :=
  [('A', 'a'), ('B', 'b'), ('C', 'c'), ('D', 'd'), ('E', 'e'), ('F', 'f'),
   ('G', 'g'), ('H', 'h'), ('I', 'i'), ('J', 'j'), ('K', 'k'), ('L', 'l'),
   ('M', 'm'), ('N', 'n'), ('O', 'o'), ('P', 'p'), ('Q', 'q'), ('R', 'r'),
   ('S', 's'), ('T', 't'), ('U', 'u'), ('V', 'v'), ('W', 'w'), ('X', 'x'),
   ('Y', 'y'), ('Z', 'z')]

/-- ASCII case mapping used by `strings.ToLower` on hostname characters:
uppercase ASCII letters map to their lowercase forms, all else is fixed. -/
def lowerChar (c : Char) : Char :=
  ((lowerTable.find? (fun p => p.1 == c)).map Prod.snd).getD c

/-- Model of `strings.ToLower`. -/
def toLowerS (s : Str) : Str := s.map lowerChar

/-- Model of `strings.Split` with a one-character separator: splits on every occurrence of `c`;
on the empty string it returns one empty field, like Go's `Split`. -/
def splitOnChar (c : Char) : Str → List Str
  | [] => [[]]
  | x :: xs =>
    if x = c then [] :: splitOnChar c xs
    else
      match splitOnChar c xs with
      | [] => [[x]]
      | y :: ys => (x :: y) :: ys

/-- Model of `strings.Join parts "."`. -/
def joinDots : List Str → Str
  | [] => []
  | [s] => s
  | s :: rest => s ++ '.' :: joinDots rest

/-- Membership lookup in the `map[string]bool` blocklist
(`ps.blocklist[domain]`). -/
def lookup (bl : List Str) (d : Str) : Bool := decide (d ∈ bl)

/-- The parent-domain loop of `IsBlocked`:
`for i := 1; i < len(parts); i++ { if blocklist[Join(parts[i:], ".")] ... }`. -/
def checkParents (bl : List Str) : List Str → Bool
  | [] => false
  | [_] => false
  | _ :: rest => lookup bl (joinDots rest) || checkParents bl rest

/-- Model of `domain := strings.Split(host, ":")[0]` — everything before the first
colon of the host. -/
def stripPort (host : Str) : Str := (splitOnChar ':' host).headI

/-- The normalized domain `IsBlocked` computes before consulting the
blocklist: port-stripped then lowercased. -/
def domainOf (host : Str) : Str := toLowerS (stripPort host)

/-- Model of `func (ps *ProxyServer) IsBlocked(host string) bool`: exact-match lookup
of the normalized domain, then the parent-domain suffix loop. -/
def IsBlocked (bl : List Str) (host : Str) : Bool :=
  lookup bl (domainOf host) || checkParents bl (splitOnChar '.' (domainOf host))

/-- Relation stating that `s` is a proper right-hand label suffix of `d`: some (possibly empty)
prefix, a literal dot, then `s`.  This is the abstract "blocking a domain
blocks its subdomains" relation the spec describes. -/
def LabelSuffix (s d : Str) : Prop := ∃ p, p ++ '.' :: s = d

instance instDecidableLabelSuffix (s d : Str) : Decidable (LabelSuffix s d) :=
  inferInstanceAs (Decidable (('.' :: s) <:+ d))

/-- Result of the HTTP fetch inside `UpdateBlocklist`: either `http.Get`
errors, or a response arrives with a status code and a body that decodes to
`PolicyResponse.Blocked` (`some blocked`) or fails to decode (`none`). -/
inductive FetchOutcome where
  | fetchError : FetchOutcome
  | response : Nat → Option (List Str) → FetchOutcome

/-- Model of `func (ps *ProxyServer) UpdateBlocklist() error`: error on fetch failure,
on a non-200 status, or on a decode failure; on success the new blocklist is
the lowercased entries of the fetched document (ports are not stripped). -/
def UpdateBlocklist (f : FetchOutcome) : Except String (List Str) :=
  match f with
  | .fetchError => .error "failed to fetch policy"
  | .response status body =>
    if status ≠ 200 then .error "policy engine returned status"
    else
      match body with
      | none => .error "failed to decode policy"
      | some blocked => .ok (blocked.map toLowerS)

/-- One tick of `StartPeriodicUpdate`: on success the blocklist is replaced,
on error it is left unchanged (the error is only logged). -/
def refreshStep (bl : List Str) (f : FetchOutcome) : List Str :=
  match UpdateBlocklist f with
  | .ok newBl => newBl
  | .error _ => bl

/-- A run of the periodic refresh loop over a sequence of fetch outcomes. -/
def refreshCycle (bl : List Str) (fs : List FetchOutcome) : List Str :=
  fs.foldl refreshStep bl

/-- The parts of the inbound `*http.Request` that `ServeHTTP` reads:
`r.Host` and the fallback `r.URL.Host`. -/
structure Request where
  host : Str
  urlHost : Str
  deriving DecidableEq

/-- Model of `host := r.Host; if host == "" { host = r.URL.Host }`. -/
def effHost (r : Request) : Str := if r.host = [] then r.urlHost else r.host

/-- The response `serveBlockedPage` writes: status code, Content-Type
header, body. -/
structure Response where
  status : Nat
  contentType : Str
  body : Str
  deriving DecidableEq

/-- The Sprintf template text before the `%s` host hole (with the `%%`
escapes of the Go format string already reduced to `%`). -/
def blockedPagePre : Str :=
  ("<!DOCTYPE html>\n<html>\n<head>\n    <title>Access Denied</title>\n    <style>\n        body \x7b\n            font-family: Arial, sans-serif;\n            background: linear-gradient(135deg, #667eea 0%, #764ba2 100%);\n            display: flex;\n            justify-content: center;\n            align-items: center;\n            height: 100vh;\n            margin: 0;\n        \x7d\n        .container \x7b\n            background: white;\n            padding: 40px;\n            border-radius: 10px;\n            box-shadow: 0 10px 40px rgba(0,0,0,0.3);\n            text-align: center;\n            max-width: 500px;\n        \x7d\n        h1 \x7b\n            color: #e74c3c;\n            margin-top: 0;\n        \x7d\n        .blocked-icon \x7b\n            font-size: 72px;\n            color: #e74c3c;\n        \x7d\n        .domain \x7b\n            background: #f8f9fa;\n            padding: 10px;\n            border-radius: 5px;\n            margin: 20px 0;\n            font-family: monospace;\n            word-break: break-all;\n        \x7d\n    </style>\n</head>\n<body>\n    <div class=\"container\">\n        <div class=\"blocked-icon\">ðŸš«</div>\n        <h1>Access Denied by Cisco Security</h1>\n        <p>The website you are trying to access has been blocked by your organization\x27s security policy.</p>\n        <div class=\"domain\">").data

/-- The Sprintf template text after the `%s` host hole. -/
def blockedPagePost : Str :=
  ("</div>\n        <p><small>If you believe this is an error, please contact your IT administrator.</small></p>\n    </div>\n</body>\n</html>").data

/-- Value set by `w.Header().Set("Content-Type", ...)`. -/
def contentTypeHtml : Str := ("text/html; charset=utf-8").data

/-- Model of `func (ps *ProxyServer) serveBlockedPage(w, host)`: a 403 text/html
response whose body is the template with the host substituted verbatim for
`%s` (no escaping is applied). -/
def serveBlockedPage (host : Str) : Response :=
  { status := 403
    contentType := contentTypeHtml
    body := blockedPagePre ++ host ++ blockedPagePost }

/-- What `ServeHTTP` does with a request: either write the block page or
hand the request to `forwardRequest`. -/
inductive Outcome where
  | blocked : Response → Outcome
  | forward : Str → Outcome
  deriving DecidableEq

/-- Model of `func (ps *ProxyServer) ServeHTTP(w, r)`: compute the effective host,
consult `IsBlocked`, then either serve the block page or forward. -/
def ServeHTTP (bl : List Str) (r : Request) : Outcome :=
  if IsBlocked bl (effHost r) then Outcome.blocked (serveBlockedPage (effHost r))
  else Outcome.forward (effHost r)

/-- The substring of a host before its first colon, used to state the
spec-level description of the port-stripping step. -/
def beforeFirstColon : Str → Str
  | [] => []
  | x :: xs => if x = ':' then [] else x :: beforeFirstColon xs

/-! ### Basic facts about the string operations -/

theorem splitOnChar_ne_nil (c : Char) (s : Str) : splitOnChar c s ≠ [] := by
  cases s with
  | nil => simp [splitOnChar]
  | cons x xs =>
    simp only [splitOnChar]
    split
    · simp
    · split
      · simp
      · simp

theorem splitOnChar_cons_self (c : Char) (xs : Str) :
    splitOnChar c (c :: xs) = [] :: splitOnChar c xs := by
  simp [splitOnChar]

theorem splitOnChar_cons_ne (c x : Char) (xs : Str) (h : ¬ x = c) :
    splitOnChar c (x :: xs) =
      (x :: (splitOnChar c xs).headI) :: (splitOnChar c xs).tail := by
  obtain ⟨y, ys, hy⟩ := List.exists_cons_of_ne_nil (splitOnChar_ne_nil c xs)
  simp [splitOnChar, h, hy]

theorem splitOnChar_append (c : Char) (a b : Str) :
    splitOnChar c (a ++ c :: b) = splitOnChar c a ++ splitOnChar c b := by
  induction a with
  | nil => simp [splitOnChar]
  | cons x a ih =>
    by_cases hx : x = c
    · subst hx
      rw [List.cons_append, splitOnChar_cons_self, splitOnChar_cons_self, ih,
        List.cons_append]
    · rw [List.cons_append, splitOnChar_cons_ne c x _ hx,
        splitOnChar_cons_ne c x a hx, ih]
      obtain ⟨y, ys, hy⟩ := List.exists_cons_of_ne_nil (splitOnChar_ne_nil c a)
      rw [hy]
      simp

theorem splitOnChar_of_not_mem (c : Char) (s : Str) (h : c ∉ s) :
    splitOnChar c s = [s] := by
  induction s with
  | nil => rfl
  | cons x xs ih =>
    have hx : ¬ x = c := by
      rintro rfl
      exact h (List.mem_cons_self _ _)
    have hxs : c ∉ xs := fun hm => h (List.mem_cons_of_mem _ hm)
    rw [splitOnChar_cons_ne c x xs hx, ih hxs]
    simp

theorem joinDots_single (s : Str) : joinDots [s] = s := rfl

theorem joinDots_cons_cons (s y : Str) (rest : List Str) :
    joinDots (s :: y :: rest) = s ++ '.' :: joinDots (y :: rest) := rfl

theorem joinDots_splitOnChar (s : Str) : joinDots (splitOnChar '.' s) = s := by
  induction s with
  | nil => rfl
  | cons x xs ih =>
    by_cases hx : x = '.'
    · subst hx
      rw [splitOnChar_cons_self]
      obtain ⟨y, ys, hy⟩ := List.exists_cons_of_ne_nil (splitOnChar_ne_nil '.' xs)
      rw [hy] at ih ⊢
      rw [joinDots_cons_cons]
      simpa using ih
    · rw [splitOnChar_cons_ne _ _ _ hx]
      obtain ⟨y, ys, hy⟩ := List.exists_cons_of_ne_nil (splitOnChar_ne_nil '.' xs)
      rw [hy] at ih ⊢
      cases ys with
      | nil =>
        rw [joinDots_single] at ih
        simp [joinDots_single, ih]
      | cons z zs =>
        rw [joinDots_cons_cons] at ih
        simp only [List.headI_cons, List.tail_cons, joinDots_cons_cons]
        rw [← ih]
        simp

theorem joinDots_append (a t : List Str) (ha : a ≠ []) (ht : t ≠ []) :
    joinDots (a ++ t) = joinDots a ++ '.' :: joinDots t := by
  induction a with
  | nil => exact absurd rfl ha
  | cons s a ih =>
    cases a with
    | nil =>
      obtain ⟨y, ys, hy⟩ := List.exists_cons_of_ne_nil ht
      subst hy
      rfl
    | cons s2 a2 =>
      have key := ih (by simp)
      show s ++ '.' :: joinDots ((s2 :: a2) ++ t) =
        (s ++ '.' :: joinDots (s2 :: a2)) ++ '.' :: joinDots t
      rw [key]
      simp

/-! ### The parent-domain loop checks exactly the proper label suffixes -/

theorem checkParents_cons_cons (bl : List Str) (x y : Str) (rest : List Str) :
    checkParents bl (x :: y :: rest) =
      (lookup bl (joinDots (y :: rest)) || checkParents bl (y :: rest)) := rfl

theorem checkParents_iff_exists (bl : List Str) (ls : List Str) :
    checkParents bl ls = true ↔
      ∃ a t, a ≠ [] ∧ t ≠ [] ∧ ls = a ++ t ∧ joinDots t ∈ bl := by
  induction ls with
  | nil =>
    constructor
    · intro h
      simp [checkParents] at h
    · rintro ⟨a, t, ha, ht, he, _⟩
      obtain ⟨ha2, ht2⟩ := List.append_eq_nil.mp he.symm
      exact absurd ha2 ha
  | cons x rest ih =>
    cases rest with
    | nil =>
      constructor
      · intro h
        simp [checkParents] at h
      · rintro ⟨a, t, ha, ht, he, _⟩
        have hlen := congrArg List.length he
        have hla : 0 < a.length := List.length_pos.mpr ha
        have hlt : 0 < t.length := List.length_pos.mpr ht
        simp at hlen
        omega
    | cons y rest2 =>
      rw [checkParents_cons_cons, Bool.or_eq_true, ih]
      constructor
      · rintro (h | ⟨a, t, ha, ht, he, hm⟩)
        · exact ⟨[x], y :: rest2, by simp, by simp, rfl,
            by simpa [lookup] using h⟩
        · exact ⟨x :: a, t, by simp, ht, by rw [he, List.cons_append], hm⟩
      · rintro ⟨a, t, ha, ht, he, hm⟩
        cases a with
        | nil => exact absurd rfl ha
        | cons a0 a1 =>
          rw [List.cons_append] at he
          injection he with he0 he1
          cases a1 with
          | nil =>
            left
            rw [List.nil_append] at he1
            rw [← he1] at hm
            simpa [lookup] using hm
          | cons a2 a3 =>
            right
            exact ⟨a2 :: a3, t, by simp, ht, he1, hm⟩

theorem checkParents_domain_iff (bl : List Str) (dom : Str) :
    checkParents bl (splitOnChar '.' dom) = true ↔
      ∃ s, LabelSuffix s dom ∧ s ∈ bl := by
  rw [checkParents_iff_exists]
  constructor
  · rintro ⟨a, t, ha, ht, he, hm⟩
    refine ⟨joinDots t, ⟨joinDots a, ?_⟩, hm⟩
    have hj := joinDots_splitOnChar dom
    rw [he, joinDots_append a t ha ht] at hj
    exact hj
  · rintro ⟨s, ⟨p, hp⟩, hm⟩
    refine ⟨splitOnChar '.' p, splitOnChar '.' s,
      splitOnChar_ne_nil _ _, splitOnChar_ne_nil _ _, ?_, ?_⟩
    · rw [← hp, splitOnChar_append]
    · rw [joinDots_splitOnChar]
      exact hm

/-! ### Lowercasing facts -/

theorem lowerChar_eq_or_mem (c : Char) :
    lowerChar c = c ∨ (c, lowerChar c) ∈ lowerTable := by
  cases hfind : lowerTable.find? (fun p => p.1 == c) with
  | none =>
    left
    simp [lowerChar, hfind]
  | some p =>
    obtain ⟨p1, p2⟩ := p
    have h1 : p1 = c := by simpa using List.find?_some hfind
    have h2 : (p1, p2) ∈ lowerTable := List.mem_of_find?_eq_some hfind
    right
    rw [show lowerChar c = p2 from by simp [lowerChar, hfind], ← h1]
    exact h2

theorem lowerChar_idem (c : Char) : lowerChar (lowerChar c) = lowerChar c := by
  have hfix : ∀ q ∈ lowerTable, lowerChar q.2 = q.2 := by decide
  rcases lowerChar_eq_or_mem c with h | h
  · rw [h]
    exact h
  · exact hfix _ h

theorem lowerChar_eq_fixed_iff (d : Char) (hd : lowerChar d = d)
    (hd2 : ∀ q ∈ lowerTable, q.2 ≠ d) (x : Char) :
    lowerChar x = d ↔ x = d := by
  constructor
  · intro hx
    rcases lowerChar_eq_or_mem x with h | h
    · rw [← h]
      exact hx
    · exact absurd hx (hd2 _ h)
  · rintro rfl
    exact hd

theorem lowerChar_eq_colon_iff (x : Char) : lowerChar x = ':' ↔ x = ':' :=
  lowerChar_eq_fixed_iff ':' (by decide) (by decide) x

theorem lowerChar_eq_dot_iff (x : Char) : lowerChar x = '.' ↔ x = '.' :=
  lowerChar_eq_fixed_iff '.' (by decide) (by decide) x

theorem toLowerS_append (a b : Str) :
    toLowerS (a ++ b) = toLowerS a ++ toLowerS b := by
  simp [toLowerS]

theorem toLowerS_cons (x : Char) (s : Str) :
    toLowerS (x :: s) = lowerChar x :: toLowerS s := rfl

theorem toLowerS_idem (s : Str) : toLowerS (toLowerS s) = toLowerS s := by
  simp only [toLowerS, List.map_map]
  exact List.map_congr_left fun a _ => lowerChar_idem a

theorem splitOnChar_toLowerS (c : Char)
    (hc : ∀ x, lowerChar x = c ↔ x = c) (s : Str) :
    splitOnChar c (toLowerS s) = (splitOnChar c s).map toLowerS := by
  induction s with
  | nil => rfl
  | cons x xs ih =>
    by_cases hx : x = c
    · have h1 : lowerChar x = c := (hc x).mpr hx
      rw [toLowerS_cons, h1, hx, splitOnChar_cons_self, splitOnChar_cons_self,
        ih]
      rfl
    · have hx2 : ¬ lowerChar x = c := fun hh => hx ((hc x).mp hh)
      rw [toLowerS_cons, splitOnChar_cons_ne c _ _ hx2,
        splitOnChar_cons_ne c x xs hx, ih]
      obtain ⟨y, ys, hy⟩ := List.exists_cons_of_ne_nil (splitOnChar_ne_nil c xs)
      rw [hy]
      simp [toLowerS_cons]

/-! ### The normalized domain computed by `IsBlocked` -/

theorem headI_map_toLowerS (l : List Str) (h : l ≠ []) :
    (l.map toLowerS).headI = toLowerS l.headI := by
  obtain ⟨y, ys, hy⟩ := List.exists_cons_of_ne_nil h
  subst hy
  rfl

theorem stripPort_toLowerS (s : Str) :
    stripPort (toLowerS s) = toLowerS (stripPort s) := by
  rw [stripPort, stripPort, splitOnChar_toLowerS ':' lowerChar_eq_colon_iff]
  exact headI_map_toLowerS _ (splitOnChar_ne_nil ':' s)

theorem domainOf_toLowerS (s : Str) : domainOf (toLowerS s) = domainOf s := by
  rw [domainOf, domainOf, stripPort_toLowerS, toLowerS_idem]

theorem stripPort_of_no_colon (s : Str) (h : ':' ∉ s) : stripPort s = s := by
  rw [stripPort, splitOnChar_of_not_mem ':' s h]
  rfl

theorem stripPort_append_colon (h p : Str) :
    stripPort (h ++ ':' :: p) = stripPort h := by
  rw [stripPort, stripPort, splitOnChar_append]
  obtain ⟨y, ys, hy⟩ := List.exists_cons_of_ne_nil (splitOnChar_ne_nil ':' h)
  rw [hy]
  rfl

theorem domainOf_append_colon (h p : Str) :
    domainOf (h ++ ':' :: p) = domainOf h := by
  rw [domainOf, domainOf, stripPort_append_colon]

theorem domainOf_of_normalized (d : Str) (h1 : ':' ∉ d)
    (h2 : toLowerS d = d) : domainOf d = d := by
  rw [domainOf, stripPort_of_no_colon d h1, h2]

theorem toLowerS_append_dot (p d : Str) :
    toLowerS (p ++ '.' :: d) = toLowerS p ++ '.' :: toLowerS d := by
  rw [toLowerS_append, toLowerS_cons, show lowerChar '.' = '.' from by decide]

theorem isBlocked_congr (bl : List Str) (h₁ h₂ : Str)
    (he : domainOf h₁ = domainOf h₂) : IsBlocked bl h₁ = IsBlocked bl h₂ := by
  rw [IsBlocked, IsBlocked, he]

theorem lookup_eq_true_iff (bl : List Str) (d : Str) :
    lookup bl d = true ↔ d ∈ bl := by
  simp [lookup]

theorem headI_splitOnChar_colon (s : Str) :
    (splitOnChar ':' s).headI = beforeFirstColon s := by
  induction s with
  | nil => rfl
  | cons x xs ih =>
    by_cases hx : x = ':'
    · subst hx
      simp [splitOnChar_cons_self, beforeFirstColon]
    · rw [splitOnChar_cons_ne ':' x xs hx]
      simp [beforeFirstColon, hx, ih]

theorem colon_not_mem_beforeFirstColon (s : Str) :
    ':' ∉ beforeFirstColon s := by
  induction s with
  | nil => simp [beforeFirstColon]
  | cons x xs ih =>
    simp only [beforeFirstColon]
    split
    · simp
    · intro hmem
      rcases List.mem_cons.mp hmem with h | h
      · rename_i hx
        exact hx h.symm
      · exact ih h

theorem domainOf_beforeFirstColon (s : Str) :
    domainOf (beforeFirstColon s) = domainOf s := by
  rw [domainOf, domainOf,
    stripPort_of_no_colon _ (colon_not_mem_beforeFirstColon s), stripPort,
    headI_splitOnChar_colon]

/-! ### Claim theorems -/

/-- C1: a request whose effective host the Matcher reports blocked is
answered with the 403 block page embedding that host and is never forwarded;
a request whose host is allowed is delegated to the Forwarding Engine; and no
request is forwarded unless `IsBlocked` returned `false` for its host. -/
theorem dispatch_matcher_guard (bl : List Str) (r : Request) :
    (IsBlocked bl (effHost r) = true →
      ServeHTTP bl r = Outcome.blocked (serveBlockedPage (effHost r)) ∧
      (serveBlockedPage (effHost r)).status = 403 ∧
      (serveBlockedPage (effHost r)).contentType = contentTypeHtml ∧
      (serveBlockedPage (effHost r)).body =
        blockedPagePre ++ effHost r ++ blockedPagePost) ∧
    (IsBlocked bl (effHost r) = false →
      ServeHTTP bl r = Outcome.forward (effHost r)) ∧
    (∀ h, ServeHTTP bl r = Outcome.forward h → IsBlocked bl h = false) := by
  refine ⟨fun hb => ⟨?_, rfl, rfl, rfl⟩, fun hb => ?_, fun h he => ?_⟩
  · simp only [ServeHTTP]
    rw [if_pos hb]
  · simp only [ServeHTTP]
    rw [if_neg (by simp [hb])]
  · by_cases hb : IsBlocked bl (effHost r) = true
    · simp only [ServeHTTP] at he
      rw [if_pos hb] at he
      simp at he
    · simp only [ServeHTTP] at he
      rw [if_neg hb] at he
      injection he with h1
      rw [← h1]
      simp only [Bool.not_eq_true] at hb
      exact hb

/-- Witness for C1 at a concrete blocked input. -/
theorem dispatch_matcher_guard_witness :
    ServeHTTP [("facebook.com").data] ⟨("www.facebook.com").data, []⟩ =
      Outcome.blocked
        (serveBlockedPage (effHost ⟨("www.facebook.com").data, []⟩)) :=
  ((dispatch_matcher_guard _ _).1 (by decide)).1

/-- C2: a normalized entry of the current blocklist is itself blocked, and
any subdomain formed by prefixing labels and a dot is blocked as well. -/
theorem isBlocked_of_mem_and_subdomain (bl : List Str) (d p : Str)
    (hmem : d ∈ bl) (hlow : toLowerS d = d) (hd : ':' ∉ d) (hp : ':' ∉ p) :
    IsBlocked bl d = true ∧ IsBlocked bl (p ++ '.' :: d) = true := by
  constructor
  · simp only [IsBlocked, domainOf_of_normalized d hd hlow, Bool.or_eq_true]
    left
    exact (lookup_eq_true_iff bl d).mpr hmem
  · have hcol : ':' ∉ p ++ '.' :: d := by
      intro hm
      rcases List.mem_append.mp hm with h | h
      · exact hp h
      · rcases List.mem_cons.mp h with h | h
        · exact absurd h (by decide)
        · exact hd h
    have hdom : domainOf (p ++ '.' :: d) = toLowerS p ++ '.' :: d := by
      simp only [domainOf]
      rw [stripPort_of_no_colon _ hcol, toLowerS_append_dot, hlow]
    simp only [IsBlocked, hdom, Bool.or_eq_true]
    right
    exact (checkParents_domain_iff bl _).mpr ⟨d, ⟨toLowerS p, rfl⟩, hmem⟩

/-- Witness for C2: blocking facebook.com blocks it and www.facebook.com. -/
theorem isBlocked_of_mem_and_subdomain_witness :
    IsBlocked [("facebook.com").data] ("facebook.com").data = true ∧
    IsBlocked [("facebook.com").data]
      (("www").data ++ '.' :: ("facebook.com").data) = true :=
  isBlocked_of_mem_and_subdomain _ _ _ (by decide) (by decide) (by decide)
    (by decide)

/-- C3: a host whose normalized domain is not an entry and none of whose
label suffixes is an entry is allowed; substring-but-not-suffix overlaps do
not block. -/
theorem isBlocked_false_of_no_suffix (bl : List Str) (host : Str)
    (h1 : domainOf host ∉ bl)
    (h2 : ∀ s ∈ bl, ¬ LabelSuffix s (domainOf host)) :
    IsBlocked bl host = false := by
  have ha : lookup bl (domainOf host) = false := by
    simp [lookup, h1]
  have hb : checkParents bl (splitOnChar '.' (domainOf host)) = false := by
    by_contra hcp
    simp only [Bool.not_eq_false] at hcp
    obtain ⟨s, hls, hmem⟩ := (checkParents_domain_iff bl (domainOf host)).mp hcp
    exact h2 s hmem hls
  simp [IsBlocked, ha, hb]

/-- Witness for C3: blocked facebook.com does not block notfacebook.com. -/
theorem isBlocked_false_of_no_suffix_witness :
    IsBlocked [("facebook.com").data] ("notfacebook.com").data = false :=
  isBlocked_false_of_no_suffix _ _ (by decide) (by decide)

/-- C4 counterexample: a successful refresh with `["facebook.com:8080"]`
installs the entry with its port intact, so the §4.2-normalized entry
`facebook.com` does not look up as blocked, while the port-carrying string
does — contradicting the claim that entries are port-stripped. -/
theorem updateBlocklist_port_cex :
    refreshStep []
        (FetchOutcome.response 200 (some [("facebook.com:8080").data])) =
      [("facebook.com:8080").data] ∧
    lookup [("facebook.com:8080").data] ("facebook.com").data = false ∧
    lookup [("facebook.com:8080").data] ("facebook.com:8080").data = true := by
  refine ⟨rfl, by decide, by decide⟩

/-- C4 amended: a successful refresh replaces the blocklist with exactly the
lowercased (but not port-stripped) elements of the fetched list; lookup then
succeeds exactly on the lowercasing of some fetched element, and no entry
contains an uppercase letter. -/
theorem updateBlocklist_replace_lowercased (old L : List Str) (d : Str) :
    refreshStep old (FetchOutcome.response 200 (some L)) = L.map toLowerS ∧
    (lookup (L.map toLowerS) d = true ↔ ∃ x ∈ L, toLowerS x = d) ∧
    (∀ e ∈ L.map toLowerS, toLowerS e = e) := by
  refine ⟨rfl, ?_, ?_⟩
  · rw [lookup_eq_true_iff, List.mem_map]
  · intro e he
    obtain ⟨x, hx, hxe⟩ := List.mem_map.mp he
    rw [← hxe, toLowerS_idem]

/-- Witness for the amended C4 at a concrete mixed-case fetched list. -/
theorem updateBlocklist_replace_lowercased_witness :
    lookup ([("FaceBook.com").data].map toLowerS) ("facebook.com").data =
      true :=
  (updateBlocklist_replace_lowercased [] [("FaceBook.com").data]
    (("facebook.com").data)).2.1.mpr ⟨("FaceBook.com").data, by decide, by decide⟩

/-- C5: every failing refresh (network error, non-success status, decode
failure) returns an error, leaves the installed blocklist unchanged, and the
refresh cycle simply continues with the next outcome. -/
theorem updateBlocklist_failure_preserves (bl : List Str) (f : FetchOutcome)
    (fs : List FetchOutcome)
    (hf : f = FetchOutcome.fetchError ∨
      (∃ st b, f = FetchOutcome.response st b ∧ ¬ (200 ≤ st ∧ st < 300)) ∨
      (∃ st, f = FetchOutcome.response st none)) :
    (∃ e, UpdateBlocklist f = Except.error e) ∧
    refreshStep bl f = bl ∧
    refreshCycle bl (f :: fs) = refreshCycle bl fs := by
  have herr : ∃ e, UpdateBlocklist f = Except.error e := by
    rcases hf with rfl | ⟨st, b, rfl, hst⟩ | ⟨st, rfl⟩
    · exact ⟨_, rfl⟩
    · have h200 : st ≠ 200 := by omega
      exact ⟨"policy engine returned status", by simp [UpdateBlocklist, h200]⟩
    · by_cases h200 : st = 200
      · subst h200
        exact ⟨_, rfl⟩
      · exact ⟨"policy engine returned status", by simp [UpdateBlocklist, h200]⟩
  obtain ⟨e, he⟩ := herr
  have hstep : refreshStep bl f = bl := by
    simp [refreshStep, he]
  refine ⟨⟨e, he⟩, hstep, ?_⟩
  show List.foldl refreshStep (refreshStep bl f) fs = List.foldl refreshStep bl fs
  rw [hstep]

/-- Witness for C5: a network error leaves the blocklist as it was and the
next cycle proceeds. -/
theorem updateBlocklist_failure_preserves_witness :
    (∃ e, UpdateBlocklist FetchOutcome.fetchError = Except.error e) ∧
    refreshStep [("facebook.com").data] FetchOutcome.fetchError =
      [("facebook.com").data] ∧
    refreshCycle [("facebook.com").data] [FetchOutcome.fetchError] =
      refreshCycle [("facebook.com").data] [] :=
  updateBlocklist_failure_preserves _ _ _ (Or.inl rfl)

/-- C6 (the code contradicts the claim): the block-page body embeds the
attacker-controlled host verbatim with no escaping, so a host containing a
script tag appears raw in the HTML, directly adjacent to markup. -/
theorem blockedPage_embeds_host_verbatim :
    (serveBlockedPage (("<script>alert(1)</script>").data)).body =
      blockedPagePre ++ ("<script>alert(1)</script>").data ++
        blockedPagePost ∧
    (serveBlockedPage (("<script>alert(1)</script>").data)).body =
      (blockedPagePre ++ ("<script>").data) ++
        (("alert(1)</script>").data ++ blockedPagePost) := by
  constructor
  · rfl
  · show blockedPagePre ++ ("<script>alert(1)</script>").data ++
      blockedPagePost = _
    rw [show ("<script>alert(1)</script>").data =
      ("<script>").data ++ ("alert(1)</script>").data from by decide]
    simp [List.append_assoc]

/-- C7 counterexample: a request with an empty Host and empty URL host is
not answered with a client error — the empty host is passed to the Matcher
and the request is handed to the Forwarding Engine. -/
theorem serveHTTP_missing_host_cex :
    ServeHTTP [] ⟨[], []⟩ = Outcome.forward [] := rfl

/-- C7 amended: on an empty Host, `ServeHTTP` falls back to the URL host,
consults the Matcher on that fallback value, and either blocks or forwards —
there is no dedicated client-error path for a missing host. -/
theorem serveHTTP_empty_host_fallback (bl : List Str) (r : Request)
    (h : r.host = []) :
    effHost r = r.urlHost ∧
    (IsBlocked bl r.urlHost = false →
      ServeHTTP bl r = Outcome.forward r.urlHost) ∧
    (IsBlocked bl r.urlHost = true →
      ServeHTTP bl r = Outcome.blocked (serveBlockedPage r.urlHost)) := by
  have hh : effHost r = r.urlHost := by
    simp [effHost, h]
  refine ⟨hh, fun hb => ?_, fun hb => ?_⟩
  · simp [ServeHTTP, hh, hb]
  · simp [ServeHTTP, hh, hb]

/-- Witness for the amended C7 at a concrete empty-Host request. -/
theorem serveHTTP_empty_host_fallback_witness :
    ServeHTTP [] ⟨[], ("example.com").data⟩ =
      Outcome.forward (("example.com").data) :=
  (serveHTTP_empty_host_fallback [] ⟨[], ("example.com").data⟩ rfl).2.1
    (by decide)

/-- C8: appending a colon-separated port never changes the Matcher verdict;
in particular facebook.com:8080 is treated exactly like facebook.com. -/
theorem isBlocked_ignores_port (bl : List Str) (h p : Str) :
    IsBlocked bl (h ++ ':' :: p) = IsBlocked bl h ∧
    IsBlocked bl (("facebook.com:8080").data) =
      IsBlocked bl (("facebook.com").data) := by
  constructor
  · exact isBlocked_congr bl _ _ (domainOf_append_colon h p)
  · exact isBlocked_congr bl _ _ (by decide)

/-- C9: the Matcher verdict is invariant under lowercasing the host; in
particular FaceBook.com is treated exactly like facebook.com. -/
theorem isBlocked_case_insensitive (bl : List Str) (h : Str) :
    IsBlocked bl (toLowerS h) = IsBlocked bl h ∧
    IsBlocked bl (("FaceBook.com").data) =
      IsBlocked bl (("facebook.com").data) := by
  constructor
  · exact isBlocked_congr bl _ _ (domainOf_toLowerS h)
  · exact isBlocked_congr bl _ _ (by decide)

/-- C10: for a host containing a colon the Matcher verdict equals the
verdict on the part before the first colon, so for the IPv6-literal host
kind only the leading bracket string is ever tested against the list. -/
theorem isBlocked_truncates_first_colon (bl : List Str) (host : Str)
    (_hc : ':' ∈ host) :
    IsBlocked bl host = IsBlocked bl (beforeFirstColon host) ∧
    IsBlocked bl (("[::1]:8080").data) = lookup bl (("[").data) := by
  constructor
  · exact (isBlocked_congr bl _ _ (domainOf_beforeFirstColon host)).symm
  · have hdom : domainOf (("[::1]:8080").data) = ("[").data := by decide
    simp only [IsBlocked, hdom]
    rw [show splitOnChar '.' (("[").data) = [("[").data] from by decide]
    rw [show checkParents bl [("[").data] = false from rfl, Bool.or_false]

/-- Witness for C10 at a concrete host containing a colon. -/
theorem isBlocked_truncates_first_colon_witness :
    IsBlocked [] (("a:b").data) =
      IsBlocked [] (beforeFirstColon (("a:b").data)) ∧
    IsBlocked [] (("[::1]:8080").data) = lookup [] (("[").data) :=
  isBlocked_truncates_first_colon [] (("a:b").data) (by decide)

end SWG
